import Mathlib

/-!
Verification of the Steam identity-resolution component (`src/cogs/steam.py`)
and the bind store with its autocomplete cache (`src/cogs/bind.py`) of the
moacyr bot.  Strings are modelled as `List Char`, Python integers as `Nat`
(or `Int` where a subtraction can go negative), SQLite rows as a list in
insertion order, and the external HTTP calls as explicit parameters.
-/

namespace Moacyr

/-! ## Decimal strings

Python renders integers in decimal (`f"{n}"` / `str(n)`) and parses decimal
digit runs with `int(...)`.  `natToChars` is `str` on a nonnegative integer,
`digitsVal` is `int` on a string of decimal digits (most significant first).
-/

/-- Numeric value of one decimal digit character, as `int` computes it. -/
def charToDigit (c : Char) : Nat := c.toNat - 48

/-- Character for one decimal digit value. -/
def digitChar (d : Nat) : Char := Char.ofNat (48 + d)

/-- Python `int(...)` applied to a run of decimal digit characters. -/
def digitsVal (l : List Char) : Nat := l.foldl (fun a c => 10 * a + charToDigit c) 0

/-- Fuel-indexed digit expansion: emits the decimal digits of `n`,
most significant first, provided `n ≤ fuel`. -/
def natToCharsAux : Nat → Nat → List Char
  | 0, _ => []
  | fuel + 1, n =>
    if n = 0 then [] else natToCharsAux fuel (n / 10) ++ [digitChar (n % 10)]

/-- Python `str(n)` for a nonnegative integer `n`. -/
def natToChars (n : Nat) : List Char :=
  if n = 0 then ['0'] else natToCharsAux (n + 1) n

/-- Python `str(i)` for a possibly negative integer. -/
def intToChars (i : Int) : List Char :=
  if i < 0 then '-' :: natToChars i.natAbs else natToChars i.toNat

/-! ## `SteamID` (`src/cogs/steam.py`, lines 66-115) -/

/-- `CONST_ID64 = 0x0110000100000000` (steam.py line 18). -/
def CONST_ID64 : Nat := 0x0110000100000000

/-- `re.search` for an end-anchored pattern: the pattern is tried at every
start position, leftmost first; since all five patterns of
`SteamID.from_guess` end in `$`, a match starting at position `i` must span
the whole suffix from `i`, so a single-position matcher `pat` receives the
complete remaining suffix. -/
def reSearch (pat : List Char → Option α) : List Char → Option α
  | [] => pat []
  | c :: cs =>
    match pat (c :: cs) with
    | some v => some v
    | none => reSearch pat cs

/-- Single-position matcher for `r"STEAM_1:([0-1]):([0-9]+)$"` (steam.py
line 76): the suffix must be the literal `STEAM_1:`, a parity bit, `:` and a
nonempty digit run reaching the end of the string.  Returns the parity bit as
a number together with the digit group. -/
def steam2At : List Char → Option (Nat × List Char)
  | 'S' :: 'T' :: 'E' :: 'A' :: 'M' :: '_' :: '1' :: ':' :: b :: ':' :: ds =>
    if (b = '0' ∨ b = '1') ∧ ds ≠ [] ∧ ds.all Char.isDigit then
      some (if b = '1' then 1 else 0, ds)
    else none
  | _ => none

/-- Single-position matcher for `r"\[U:1:([0-9]{1,10})\]$"` (steam.py
line 80): the suffix is `[U:1:`, one to ten digits, then `]` at the end. -/
def steam3At : List Char → Option (List Char)
  | '[' :: 'U' :: ':' :: '1' :: ':' :: rest =>
    if rest.getLast? = some ']' ∧ rest.dropLast ≠ [] ∧ rest.dropLast.length ≤ 10 ∧
        rest.dropLast.all Char.isDigit then
      some rest.dropLast
    else none
  | _ => none

/-- Single-position matcher for `r"([0-9]{17})/?$"` (steam.py line 84):
seventeen digits followed by an optional `/` at the end. -/
def id64At (s : List Char) : Option (List Char) :=
  if (s.take 17).length = 17 ∧ (s.take 17).all Char.isDigit ∧
      (s.drop 17 = [] ∨ s.drop 17 = ['/']) then
    some (s.take 17)
  else none

/-- Single-position matcher for `r"([0-9]{1,10})/?$"` (steam.py line 88):
one to ten digits followed by an optional `/` at the end. -/
def id32At (s : List Char) : Option (List Char) :=
  let core := if s.getLast? = some '/' then s.dropLast else s
  if core ≠ [] ∧ core.length ≤ 10 ∧ core.all Char.isDigit then some core else none

/-- The character class `[a-zA-Z-0-9_\-]` of the vanity pattern (steam.py
line 92): ASCII letters, digits, hyphen and underscore. -/
def isVanityChar (c : Char) : Bool := c.isAlpha || c.isDigit || c == '-' || c == '_'

/-- Single-position matcher for the vanity pattern `r"([a-zA-Z-0-9_\-]+)/?$"`
(steam.py line 92). -/
def vanityAt (s : List Char) : Option (List Char) :=
  let core := if s.getLast? = some '/' then s.dropLast else s
  if core ≠ [] ∧ core.all isVanityChar then some core else none

/-- Outcome of the pure part of `SteamID.from_guess`: one of the four numeric
patterns produced an id64 directly, or the vanity branch defers to the
external `ResolveVanityURL` call with the captured name, or nothing matched
(the `IdNotFound` exception). -/
inductive GuessStep where
  | found (id64 : Nat)
  | vanity (name : List Char)
  | notFound
deriving DecidableEq

/-- `SteamID.from_guess` (steam.py lines 72-98) up to the external vanity
lookup: the five `re.search` calls are tried in order, first match wins, and
each arm applies the arithmetic of the corresponding source line. -/
def from_guess_core (s : List Char) : GuessStep :=
  match reSearch steam2At s with
  | some (b, ds) => .found (digitsVal ds * 2 + CONST_ID64 + b)
  | none =>
  match reSearch steam3At s with
  | some ds => .found (digitsVal ds + CONST_ID64)
  | none =>
  match reSearch id64At s with
  | some ds => .found (digitsVal ds)
  | none =>
  match reSearch id32At s with
  | some ds => .found (digitsVal ds + CONST_ID64)
  | none =>
  match reSearch vanityAt s with
  | some name => .vanity name
  | none => .notFound

/-- `SteamID.from_guess` with the external `ResolveVanityURL` lookup supplied
as an oracle (`none` models a non-200 status or `success != 1`); an overall
`none` models the `IdNotFound` exception. -/
def from_guess (vanity : List Char → Option Nat) (s : List Char) : Option Nat :=
  match from_guess_core s with
  | .found i => some i
  | .vanity name => vanity name
  | .notFound => none

/-- `SteamID.__init__` stores `id64`; every construction in the repository
comes from `from_guess`, whose result is a nonnegative integer. -/
structure SteamID where
  id64 : Nat
deriving DecidableEq

/-- `SteamID.__to_32` (steam.py line 108): `id64 - CONST_ID64`, a Python int
subtraction that may be negative. -/
def SteamID.id32 (x : SteamID) : Int := (x.id64 : Int) - CONST_ID64

/-- `weird_bit = int(bin(self.id64)[-1])` (steam.py line 111): the last
binary digit of the nonnegative `id64`, i.e. `id64 % 2`. -/
def SteamID.weird_bit (x : SteamID) : Nat := x.id64 % 2

/-- `SteamID.__to_steam2` (steam.py line 112):
`f"STEAM_1:{weird_bit}:{(id64 - CONST_ID64 - weird_bit) // 2}"`, with
Python `//` being floor division. -/
def SteamID.steam2 (x : SteamID) : List Char :=
  "STEAM_1:".data ++ natToChars x.weird_bit ++ ":".data ++
    intToChars (Int.fdiv ((x.id64 : Int) - CONST_ID64 - x.weird_bit) 2)

/-- `SteamID.__to_steam3` (steam.py line 115): `f"[U:1:{id64 - CONST_ID64}]"`. -/
def SteamID.steam3 (x : SteamID) : List Char :=
  "[U:1:".data ++ intToChars ((x.id64 : Int) - CONST_ID64) ++ "]".data

/-! ## `SteamUser` (`src/cogs/steam.py`, lines 118-176)

An HTTP response is reduced to its status code and the parsed JSON payload
the method extracts from it; the payload types are parameters since their
contents never influence control flow here.
-/

/-- An `httpx.Response`, reduced to the status code and the extracted
payload. -/
structure Resp (α : Type) where
  status : Nat
  payload : α
deriving DecidableEq

/-- `httpx.Response.raise_for_status`: raises `HTTPStatusError` (modelled as
`none`) on every non-2xx status — informational (1xx) and redirect (3xx)
responses included, not only 4xx/5xx. -/
def raise_for_status (r : Resp α) : Option (Resp α) :=
  if 200 ≤ r.status ∧ r.status ≤ 299 then some r else none

/-- The response fields `SteamUser.__init__` stores (steam.py lines 148-153);
`r_friends` is `None` when the friend-list fetch was not a 200. -/
structure SteamUser (α β γ δ ε : Type) where
  r_summary : α
  r_bans : β
  r_friends : Option (List γ)
  r_level : δ
  r_customs : ε
deriving DecidableEq

/-- `SteamUser.from_steamid` (steam.py lines 121-138) after the five
`asyncio.gather` fetches have completed: summary, bans, level and customs go
through `raise_for_status`; the friends response is unwrapped only when its
status is 200 (its `raise_for_status` cannot raise on a 200), otherwise
`r_friends` is set to `None` without raising. -/
def from_steamid (summ : Resp α) (bans : Resp β) (friends : Resp (List γ))
    (level : Resp δ) (customs : Resp ε) : Option (SteamUser α β γ δ ε) := do
  let s ← raise_for_status summ
  let b ← raise_for_status bans
  let fr : Option (List γ) := if friends.status = 200 then some friends.payload else none
  let l ← raise_for_status level
  let c ← raise_for_status customs
  some ⟨s.payload, b.payload, fr, l.payload, c.payload⟩

/-- The property `SteamUser.friend_amount` (steam.py lines 172-176):
`if self.r_friends: return len(self.r_friends)` then `return None`.  The
truthiness test sends both `None` and the empty list to `None`. -/
def SteamUser.friend_amount (u : SteamUser α β γ δ ε) : Option Nat :=
  match u.r_friends with
  | some (f :: fs) => some (f :: fs).length
  | _ => none

/-! ## `BindManager` (`src/cogs/bind.py`)

The SQLite table `binds` is modelled as a list of rows in insertion order;
`complete_cache` is an association list keyed by `(user id, guild id)`.
-/

/-- Name-length bounds (bind.py lines 32-33). -/
def MIN_NAME_LEN : Nat := 2

/-- Name-length bounds (bind.py lines 32-33). -/
def MAX_NAME_LEN : Nat := 25

/-- Text-length bounds (bind.py lines 35-36). -/
def MIN_TEXT_LEN : Nat := 3

/-- Text-length bounds (bind.py lines 35-36). -/
def MAX_TEXT_LEN : Nat := 600

/-- `MAX_COMPLETE_OPTS` (utils.py line 16). -/
def MAX_COMPLETE_OPTS : Nat := 25

/-- Python `str.lower` on the ASCII range bind names live in. -/
def lowerStr (s : List Char) : List Char := s.map Char.toLower

/-- Python `str.isalnum` restricted to ASCII strings: nonempty and every
character an ASCII letter or digit.  The real builtin is Unicode-aware
(it also accepts characters such as `é`), so faithful statements take the
predicate as a parameter (see `create`); this ASCII version, on which the
builtin and the ASCII check coincide, instantiates that parameter at the
concrete ASCII inputs of the witnesses. -/
def isAlnumStr (s : List Char) : Bool := !s.isEmpty && s.all Char.isAlphanum

/-- Does `needle` occur at the head of `hay`? -/
def leadMatch : List Char → List Char → Bool
  | [], _ => true
  | _ :: _, [] => false
  | a :: as, b :: bs => a == b && leadMatch as bs

/-- Python substring test `needle in hay`. -/
def strMem (needle : List Char) : List Char → Bool
  | [] => needle.isEmpty
  | c :: cs => leadMatch needle (c :: cs) || strMem needle cs

/-- A row of the `binds` table (bind.py lines 41-49 and 59-68). -/
structure Bind where
  name : List Char
  text : List Char
  author : Nat
  guild : Nat
  time : Nat
deriving DecidableEq

/-- The mutable state of `BindManager`: the `binds` table plus
`complete_cache` (bind.py line 69). -/
structure BindState where
  db : List Bind
  cache : List ((Nat × Nat) × List Bind)
deriving DecidableEq

/-- `dict.get` on the cache. -/
def lookupCache (cache : List ((Nat × Nat) × List Bind)) (k : Nat × Nat) :
    Option (List Bind) :=
  (cache.find? (fun e => e.1 == k)).map (fun e => e.2)

/-- `dict` item assignment on the cache: replace the entry if the key is
present, append it otherwise. -/
def setCache (cache : List ((Nat × Nat) × List Bind)) (k : Nat × Nat)
    (v : List Bind) : List ((Nat × Nat) × List Bind) :=
  if (cache.find? (fun e => e.1 == k)).isSome then
    cache.map (fun e => if e.1 == k then (k, v) else e)
  else cache ++ [(k, v)]

/-- `BindManager.get_bind` (bind.py lines 71-80): `SELECT` by lowercased name
and guild, first row or `None`. -/
def get_bind (st : BindState) (name : List Char) (guild : Nat) : Option Bind :=
  st.db.find? (fun b => decide (b.name = lowerStr name ∧ b.guild = guild))

/-- `BindManager.get_all_binds` (bind.py lines 82-91): `SELECT` by author and
guild, all rows in order. -/
def get_all_binds (st : BindState) (author guild : Nat) : List Bind :=
  st.db.filter (fun b => decide (b.author = author ∧ b.guild = guild))

/-- `BindManager.add_bind` (bind.py lines 93-103): `INSERT` of the lowercased
name.  The table declares `UNIQUE("guild","name")`, so a duplicate key makes
`cursor.execute` raise `sqlite3.IntegrityError` (modelled as `none`) before
`_commit` runs; on success `_commit` commits and clears the whole
`complete_cache` (bind.py lines 126-128). -/
def add_bind (st : BindState) (name text : List Char) (author guild time_ : Nat) :
    Option BindState :=
  if st.db.any (fun b => decide (b.guild = guild ∧ b.name = lowerStr name)) then none
  else some { db := st.db ++ [⟨lowerStr name, text, author, guild, time_⟩], cache := [] }

/-- `BindManager.edit_bind` (bind.py lines 105-110): `UPDATE binds SET text`
by name and guild, then `_commit`, which clears the whole cache. -/
def edit_bind (st : BindState) (bind : Bind) (newText : List Char) : BindState :=
  { db := st.db.map (fun b =>
      if b.name = bind.name ∧ b.guild = bind.guild then { b with text := newText } else b),
    cache := [] }

/-- `BindManager.delete_bind` (bind.py lines 112-117): `DELETE` by name and
guild, then `_commit`, which clears the whole cache. -/
def delete_bind (st : BindState) (bind : Bind) : BindState :=
  { db := st.db.filter (fun b => decide (¬ (b.name = bind.name ∧ b.guild = bind.guild))),
    cache := [] }

/-- `BindManager.nuke_server_binds` (bind.py lines 119-124): `DELETE` by
guild, then `_commit`, which clears the whole cache. -/
def nuke_server_binds (st : BindState) (guild : Nat) : BindState :=
  { db := st.db.filter (fun b => decide (b.guild ≠ guild)), cache := [] }

/-- The autocomplete handler `bind_complete` (bind.py lines 189-209).  The
cache test is Python truthiness (`if not complete_cache.get(user_tuple)`), so
a missing entry and an entry holding the empty list both count as a miss and
trigger a database read that (re)populates the entry.  The suggestions slice
the cached list to `MAX_COMPLETE_OPTS` first and only then filter by
`current in bind.name`.  Returns the suggested binds, the updated state, and
whether a database read happened. -/
def bind_complete (st : BindState) (user guild : Nat) (current : List Char) :
    List Bind × BindState × Bool :=
  let key := (user, guild)
  let miss := match lookupCache st.cache key with
    | none => true
    | some l => l.isEmpty
  let st' := if miss then
      { st with cache := setCache st.cache key (get_all_binds st user guild) }
    else st
  let entry := (lookupCache st'.cache key).getD []
  let sugg := if current.isEmpty then entry.take MAX_COMPLETE_OPTS
    else (entry.take MAX_COMPLETE_OPTS).filter (fun b => strMem current b.name)
  (sugg, st', miss)

/-- Failure modes of the `/bind register` flow. -/
inductive CreateErr where
  | duplicateName
  | invalidInput
deriving DecidableEq

/-- The full snippet-creation flow: `BindGroup.register` (bind.py lines
303-329) followed by `BindRegisterModal.on_submit` (lines 147-158).  In
order: the duplicate check via `get_bind`, the `isalnum` check, the
name-length check, the modal text field (whose declared
`min_length`/`max_length` bounds the submitted text to `[3, 600]`), then
`add_bind`.  The name-length branch in the source sends the error embed and
is missing a `return`, but the `send_modal` on the next line then raises
`InteractionResponded` (the interaction was already responded to), so the
modal never opens and no row is inserted: observably the flow fails with the
invalid-input message and an unchanged store, which is how it is modelled
here.  `alnum` stands for Python's Unicode-aware `str.isalnum`, supplied as
a parameter because its Unicode character tables live outside this
repository (on ASCII names it coincides with `isAlnumStr`); `cleanse` stands
for `cleanse_text`, whose mention rewriting needs the chat client.  Returns
the error (if any) and the resulting state. -/
def create (alnum : List Char → Bool) (cleanse : List Char → List Char) (st : BindState)
    (name text : List Char) (author guild time_ : Nat) : Option CreateErr × BindState :=
  if (get_bind st name guild).isSome then (some .duplicateName, st)
  else if ¬ alnum name then (some .invalidInput, st)
  else if name.length > MAX_NAME_LEN ∨ name.length < MIN_NAME_LEN then
    (some .invalidInput, st)
  else if text.length < MIN_TEXT_LEN ∨ text.length > MAX_TEXT_LEN then
    (some .invalidInput, st)
  else
    match add_bind st name (cleanse text) author guild time_ with
    | some st' => (none, st')
    | none => (some .duplicateName, st)

/-! ## Decimal rendering lemmas -/

theorem charToDigit_digitChar (d : Nat) (h : d < 10) : charToDigit (digitChar d) = d := by
  interval_cases d <;> decide

theorem isDigit_digitChar (d : Nat) (h : d < 10) : (digitChar d).isDigit = true := by
  interval_cases d <;> decide

theorem digitsVal_concat (l : List Char) (c : Char) :
    digitsVal (l ++ [c]) = 10 * digitsVal l + charToDigit c := by
  simp [digitsVal, List.foldl_append]

theorem natToCharsAux_val (fuel : Nat) :
    ∀ n, n ≤ fuel → digitsVal (natToCharsAux fuel n) = n := by
  induction fuel with
  | zero =>
    intro n hn
    interval_cases n
    decide
  | succ f ih =>
    intro n hn
    by_cases h0 : n = 0
    · subst h0; simp [natToCharsAux, digitsVal]
    · have hdiv : n / 10 ≤ f := by
        have := Nat.div_lt_self (Nat.pos_of_ne_zero h0) (by omega : (1 : Nat) < 10)
        omega
      simp only [natToCharsAux, if_neg h0, digitsVal_concat, ih (n / 10) hdiv,
        charToDigit_digitChar (n % 10) (Nat.mod_lt n (by omega))]
      omega

theorem natToCharsAux_all_digit (fuel : Nat) :
    ∀ n, (natToCharsAux fuel n).all Char.isDigit = true := by
  induction fuel with
  | zero => intro n; rfl
  | succ f ih =>
    intro n
    by_cases h0 : n = 0
    · simp [natToCharsAux, h0]
    · simp only [natToCharsAux, if_neg h0, List.all_append, Bool.and_eq_true]
      exact ⟨ih (n / 10), by simp [isDigit_digitChar (n % 10) (Nat.mod_lt n (by omega))]⟩

theorem natToCharsAux_len (fuel : Nat) :
    ∀ n k, n < 10 ^ k → (natToCharsAux fuel n).length ≤ k := by
  induction fuel with
  | zero => intro n k _; simp [natToCharsAux]
  | succ f ih =>
    intro n k hk
    by_cases h0 : n = 0
    · simp [natToCharsAux, h0]
    · have hk1 : 1 ≤ k := by
        rcases Nat.eq_zero_or_pos k with rfl | h
        · simp at hk; omega
        · exact h
      have hdiv : n / 10 < 10 ^ (k - 1) := by
        apply Nat.div_lt_of_lt_mul
        have h10 : 10 * 10 ^ (k - 1) = 10 ^ k := by
          rw [← pow_succ']
          congr 1
          omega
        omega
      have := ih (n / 10) (k - 1) hdiv
      simp only [natToCharsAux, if_neg h0, List.length_append, List.length_singleton]
      omega

theorem digitsVal_natToChars (n : Nat) : digitsVal (natToChars n) = n := by
  by_cases h0 : n = 0
  · subst h0; decide
  · simp only [natToChars, if_neg h0]
    exact natToCharsAux_val (n + 1) n (by omega)

theorem natToChars_all_digit (n : Nat) : (natToChars n).all Char.isDigit = true := by
  by_cases h0 : n = 0
  · subst h0; decide
  · simp only [natToChars, if_neg h0]
    exact natToCharsAux_all_digit (n + 1) n

theorem natToChars_ne_nil (n : Nat) : natToChars n ≠ [] := by
  by_cases h0 : n = 0
  · subst h0; decide
  · simp [natToChars, natToCharsAux, h0]

theorem natToChars_len_le (n k : Nat) (hn : n < 10 ^ k) (hk : 1 ≤ k) :
    (natToChars n).length ≤ k := by
  by_cases h0 : n = 0
  · subst h0; simpa [natToChars] using hk
  · simp only [natToChars, if_neg h0]
    exact natToCharsAux_len (n + 1) n k hn

theorem intToChars_natCast (m : Nat) : intToChars (m : Int) = natToChars m := by
  rw [intToChars, if_neg (by omega), Int.toNat_natCast]

theorem fdiv_natCast_two (m : Nat) : Int.fdiv ((m : Nat) : Int) 2 = ((m / 2 : Nat) : Int) := by
  rw [Int.fdiv_eq_tdiv (by omega) (by omega), Int.ofNat_tdiv]
  norm_num

/-! ## Lemmas about the leftmost-search model of `re.search` -/

theorem reSearch_of_head (pat : List Char → Option α) (s : List Char) (v : α)
    (h : pat s = some v) : reSearch pat s = some v := by
  cases s with
  | nil => simpa [reSearch] using h
  | cons c cs => simp [reSearch, h]

theorem reSearch_eq_none (pat : List Char → Option α) (s : List Char)
    (h : ∀ j, pat (s.drop j) = none) : reSearch pat s = none := by
  induction s with
  | nil => simpa [reSearch] using h 0
  | cons c cs ih =>
    have h0 := h 0
    rw [List.drop_zero] at h0
    simp only [reSearch, h0]
    exact ih (fun j => by simpa [List.drop_succ_cons] using h (j + 1))

theorem reSearch_append (pat : List Char → Option α) (pre t : List Char) (v : α)
    (hpre : ∀ j, j < pre.length → pat (pre.drop j ++ t) = none)
    (ht : pat t = some v) : reSearch pat (pre ++ t) = some v := by
  induction pre with
  | nil => simpa using reSearch_of_head pat t v ht
  | cons p ps ih =>
    have h0 : pat (p :: (ps ++ t)) = none := by
      simpa using hpre 0 (by simp)
    show reSearch pat (p :: (ps ++ t)) = some v
    simp only [reSearch, h0]
    exact ih (fun j hj => by
      simpa [List.drop_succ_cons] using hpre (j + 1) (by simpa using Nat.succ_lt_succ hj))

/-- A suffix of `u ++ [c]` starting inside `u` is `u.drop j ++ [c]`; one
starting at or past the end is empty.  Hence an end-anchored pattern that
rejects both every string ending in `c` and the empty string never matches. -/
theorem reSearch_concat_none (pat : List Char → Option α) (u : List Char) (c : Char)
    (hpat : ∀ v, pat (v ++ [c]) = none) (hnil : pat [] = none) :
    reSearch pat (u ++ [c]) = none := by
  apply reSearch_eq_none
  intro j
  by_cases hj : j ≤ u.length
  · rw [List.drop_append_eq_append_drop, Nat.sub_eq_zero_of_le hj, List.drop_zero]
    exact hpat _
  · rw [List.drop_eq_nil_of_le (by simp; omega)]
    exact hnil

/-! ## Shape lemmas for the five single-position matchers -/

theorem steam2At_last_digit (t : List Char) (p : Nat × List Char) (h : steam2At t = some p) :
    ∃ c, t.getLast? = some c ∧ c.isDigit = true := by
  unfold steam2At at h
  split at h
  case h_2 => exact absurd h (by simp)
  case h_1 a b ds =>
    split at h
    case isFalse => exact absurd h (by simp)
    case isTrue hcond =>
    obtain ⟨hb, hne, hdig⟩ := hcond
    rcases List.eq_nil_or_concat ds with rfl | ⟨L, d, rfl⟩
    · exact absurd rfl hne
    · refine ⟨d, ?_, ?_⟩
      · rw [List.concat_eq_append]
        simp only [← List.cons_append]
        rw [List.getLast?_concat]
      · rw [List.concat_eq_append] at hdig
        exact List.all_eq_true.mp hdig d
          (List.mem_append_right _ (List.mem_singleton_self _))

theorem steam2At_concat_none (v : List Char) (c : Char) (hc : c.isDigit = false) :
    steam2At (v ++ [c]) = none := by
  cases h : steam2At (v ++ [c]) with
  | none => rfl
  | some p =>
    obtain ⟨d, hd, hdig⟩ := steam2At_last_digit _ _ h
    rw [List.getLast?_concat] at hd
    cases Option.some.inj hd
    rw [hdig] at hc
    exact absurd hc (by simp)

theorem reSearch_steam2_concat_none (u : List Char) (c : Char) (hc : c.isDigit = false) :
    reSearch steam2At (u ++ [c]) = none :=
  reSearch_concat_none steam2At u c (fun v => steam2At_concat_none v c hc) rfl

theorem steam3At_last (t ds : List Char) (h : steam3At t = some ds) :
    t.getLast? = some ']' := by
  unfold steam3At at h
  split at h
  case h_2 => exact absurd h (by simp)
  case h_1 a rest =>
    split at h
    case isFalse => exact absurd h (by simp)
    case isTrue hcond =>
    obtain ⟨hlast, hne, hlen, hdig⟩ := hcond
    rcases List.getLast?_eq_some_iff.mp hlast with ⟨ys, rfl⟩
    simp only [← List.cons_append]
    rw [List.getLast?_concat]

theorem steam3At_concat_none (v : List Char) (c : Char) (hc : c ≠ ']') :
    steam3At (v ++ [c]) = none := by
  cases h : steam3At (v ++ [c]) with
  | none => rfl
  | some ds =>
    have hl := steam3At_last _ _ h
    rw [List.getLast?_concat] at hl
    exact absurd (Option.some.inj hl) hc

theorem reSearch_steam3_concat_none (u : List Char) (c : Char) (hc : c ≠ ']') :
    reSearch steam3At (u ++ [c]) = none :=
  reSearch_concat_none steam3At u c (fun v => steam3At_concat_none v c hc) rfl

theorem id64At_of_17 (ds : List Char) (h17 : ds.length = 17) (hd : ds.all Char.isDigit = true) :
    id64At ds = some ds := by
  unfold id64At
  rw [List.take_of_length_le (by omega), List.drop_eq_nil_of_le (by omega)]
  simp [h17, hd]

theorem id64At_prefix_none (u ds : List Char) (hu : u ≠ []) (h17 : ds.length = 17)
    (hd : ds.all Char.isDigit = true) : id64At (u ++ ds) = none := by
  unfold id64At
  rw [if_neg]
  rintro ⟨hlen, hdig, hrest⟩
  have hulen : 1 ≤ u.length := by
    rcases u with _ | _
    · exact absurd rfl hu
    · simp
  have hrestlen : ((u ++ ds).drop 17).length = u.length := by
    rw [List.length_drop, List.length_append, h17]
    omega
  rcases hrest with h | h
  · rw [h] at hrestlen
    simp at hrestlen
    omega
  · rw [h] at hrestlen
    simp at hrestlen
    have hd16 : (u ++ ds).drop 17 = ds.drop (17 - u.length) := by
      rw [List.drop_append_eq_append_drop, List.drop_eq_nil_of_le (by omega), List.nil_append]
    rw [h] at hd16
    have hm : '/' ∈ ds :=
      List.mem_of_mem_drop (by rw [← hd16]; exact List.mem_singleton_self '/')
    exact absurd (List.all_eq_true.mp hd '/' hm) (by decide)

theorem ne_slash_of_isDigit (c : Char) (h : c.isDigit = true) : c ≠ '/' := by
  intro he
  subst he
  exact absurd h (by decide)

theorem getLast?_isDigit_false_of_all_digit (ds : List Char) (hne : ds ≠ [])
    (hd : ds.all Char.isDigit = true) : ∃ d, ds.getLast? = some d ∧ d.isDigit = true := by
  rcases List.eq_nil_or_concat ds with rfl | ⟨L, d, rfl⟩
  · exact absurd rfl hne
  · rw [List.concat_eq_append] at hd ⊢
    exact ⟨d, List.getLast?_concat _,
      List.all_eq_true.mp hd d (List.mem_append_right _ (List.mem_singleton_self _))⟩

theorem id32At_self (ds : List Char) (hne : ds ≠ []) (hlen : ds.length ≤ 10)
    (hd : ds.all Char.isDigit = true) : id32At ds = some ds := by
  obtain ⟨d, hlast, hdig⟩ := getLast?_isDigit_false_of_all_digit ds hne hd
  have hslash : ¬ ds.getLast? = some '/' := by
    rw [hlast]
    exact fun he => ne_slash_of_isDigit d hdig (Option.some.inj he)
  simp only [id32At]
  rw [if_neg hslash, if_pos ⟨hne, hlen, hd⟩]

theorem id32At_concat_slash (ds : List Char) (hne : ds ≠ []) (hlen : ds.length ≤ 10)
    (hd : ds.all Char.isDigit = true) : id32At (ds ++ ['/']) = some ds := by
  simp only [id32At]
  rw [List.getLast?_concat, if_pos rfl, List.dropLast_concat, if_pos ⟨hne, hlen, hd⟩]

theorem id32At_prefix_none (u ds : List Char) (hu : u ≠ [])
    (hul : ∀ c, u.getLast? = some c → c.isDigit = false)
    (hne : ds ≠ []) (hd : ds.all Char.isDigit = true) :
    id32At (u ++ ds) = none ∧ id32At ((u ++ ds) ++ ['/']) = none := by
  obtain ⟨cu, hcu⟩ : ∃ cu, u.getLast? = some cu := by
    rcases List.eq_nil_or_concat u with rfl | ⟨L, cu, rfl⟩
    · exact absurd rfl hu
    · exact ⟨cu, by rw [List.concat_eq_append, List.getLast?_concat]⟩
  have hcud : cu.isDigit = false := hul cu hcu
  have hmem : cu ∈ u ++ ds := by
    rcases List.getLast?_eq_some_iff.mp hcu with ⟨ys, rfl⟩
    exact List.mem_append_left _ (List.mem_append_right _ (List.mem_singleton_self _))
  have hall : (u ++ ds).all Char.isDigit = false := by
    rcases hall : (u ++ ds).all Char.isDigit with _ | _
    · rfl
    · rw [List.all_eq_true.mp hall cu hmem] at hcud
      exact absurd hcud (by simp)
  obtain ⟨d, hlast, hdig⟩ := getLast?_isDigit_false_of_all_digit ds hne hd
  have hslash : ¬ (u ++ ds).getLast? = some '/' := by
    rw [List.getLast?_append, hlast, Option.or_some]
    exact fun he => ne_slash_of_isDigit d hdig (Option.some.inj he)
  constructor
  · simp only [id32At]
    rw [if_neg hslash, if_neg]
    rintro ⟨-, -, hcontra⟩
    rw [hall] at hcontra
    exact absurd hcontra (by simp)
  · simp only [id32At]
    rw [List.getLast?_concat, if_pos rfl, List.dropLast_concat, if_neg]
    rintro ⟨-, -, hcontra⟩
    rw [hall] at hcontra
    exact absurd hcontra (by simp)

theorem reSearch_id32_found (pre ds opt : List Char)
    (hopt : opt = [] ∨ opt = ['/'])
    (hne : ds ≠ []) (hlen : ds.length ≤ 10) (hd : ds.all Char.isDigit = true)
    (hpre : ∀ c, pre.getLast? = some c → c.isDigit = false) :
    reSearch id32At (pre ++ (ds ++ opt)) = some ds := by
  apply reSearch_append
  · intro j hj
    set u := pre.drop j with hu
    have hune : u ≠ [] := by
      have : 0 < u.length := by rw [hu, List.length_drop]; omega
      exact List.ne_nil_of_length_pos this
    have hulast : ∀ c, u.getLast? = some c → c.isDigit = false := by
      intro c hc
      apply hpre c
      have hsplit : pre = pre.take j ++ u := (List.take_append_drop j pre).symm
      rw [hsplit, List.getLast?_append, hc, Option.or_some]
    have hmain := id32At_prefix_none u ds hune hulast hne hd
    rcases hopt with rfl | rfl
    · simpa [← List.append_assoc] using hmain.1
    · simpa [← List.append_assoc] using hmain.2
  · rcases hopt with rfl | rfl
    · simpa using id32At_self ds hne hlen hd
    · exact id32At_concat_slash ds hne hlen hd

/-! ## Evaluation lemmas for `from_guess` -/

theorem from_guess_core_steam2 (s : List Char) (b : Nat) (ds : List Char)
    (h : reSearch steam2At s = some (b, ds)) :
    from_guess_core s = .found (digitsVal ds * 2 + CONST_ID64 + b) := by
  unfold from_guess_core
  rw [h]

theorem from_guess_core_steam3 (s : List Char) (ds : List Char)
    (h2 : reSearch steam2At s = none) (h3 : reSearch steam3At s = some ds) :
    from_guess_core s = .found (digitsVal ds + CONST_ID64) := by
  unfold from_guess_core
  rw [h2, h3]

theorem from_guess_core_id64 (s : List Char) (ds : List Char)
    (h2 : reSearch steam2At s = none) (h3 : reSearch steam3At s = none)
    (h64 : reSearch id64At s = some ds) :
    from_guess_core s = .found (digitsVal ds) := by
  unfold from_guess_core
  rw [h2, h3, h64]

theorem from_guess_core_id32 (s : List Char) (ds : List Char)
    (h2 : reSearch steam2At s = none) (h3 : reSearch steam3At s = none)
    (h64 : reSearch id64At s = none) (h32 : reSearch id32At s = some ds) :
    from_guess_core s = .found (digitsVal ds + CONST_ID64) := by
  unfold from_guess_core
  rw [h2, h3, h64, h32]

theorem from_guess_found (v : List Char → Option Nat) (s : List Char) (i : Nat)
    (h : from_guess_core s = .found i) : from_guess v s = some i := by
  unfold from_guess
  rw [h]

/-! ## Claim C1 -/

/-- C1: for every valid 32-bit account number `n`, the `SteamID` built from
`id64 = n + CONST_ID64` has `id32 = id64 - CONST_ID64 = n`, and re-parsing
either derived text form with `SteamID.from_guess` reproduces the same id64,
whatever the external vanity oracle does:
`resolve(steam2(n)) = resolve(steam3(n)) = n + CONST_ID64`. -/
theorem steamid_roundtrip_C1 (n : Nat) (hn : n < 2 ^ 32) :
    (SteamID.mk (n + CONST_ID64)).id32 = n ∧
    (∀ v, from_guess v (SteamID.mk (n + CONST_ID64)).steam2 = some (n + CONST_ID64)) ∧
    (∀ v, from_guess v (SteamID.mk (n + CONST_ID64)).steam3 = some (n + CONST_ID64)) := by
  have hbit : (SteamID.mk (n + CONST_ID64)).weird_bit = n % 2 := by
    show (n + CONST_ID64) % 2 = n % 2
    rw [CONST_ID64]
    omega
  refine ⟨?_, ?_, ?_⟩
  · show ((n + CONST_ID64 : Nat) : Int) - CONST_ID64 = n
    push_cast
    ring
  · -- the SteamID2 round trip
    have hs2 : (SteamID.mk (n + CONST_ID64)).steam2 =
        "STEAM_1:".data ++ natToChars (n % 2) ++ ":".data ++ natToChars (n / 2) := by
      rw [SteamID.steam2, hbit]
      have harg : (((SteamID.mk (n + CONST_ID64)).id64 : Int) - CONST_ID64 - ((n % 2 : Nat) : Int))
          = ((n - n % 2 : Nat) : Int) := by
        show (((n + CONST_ID64 : Nat) : Int) - CONST_ID64 - ((n % 2 : Nat) : Int)) = _
        push_cast
        omega
      rw [harg, fdiv_natCast_two, intToChars_natCast]
      have hdiv : (n - n % 2) / 2 = n / 2 := by omega
      rw [hdiv]
    have hmatch : steam2At ((SteamID.mk (n + CONST_ID64)).steam2)
        = some (n % 2, natToChars (n / 2)) := by
      rw [hs2]
      have hA : "STEAM_1:".data = ['S','T','E','A','M','_','1',':'] := by decide
      have hB : ":".data = [':'] := by decide
      rcases Nat.mod_two_eq_zero_or_one n with hb | hb <;> rw [hb]
      · rw [hA, hB, show natToChars 0 = ['0'] from by decide]
        simp only [List.cons_append, List.nil_append]
        simp [steam2At, natToChars_ne_nil (n / 2), natToChars_all_digit (n / 2)]
      · rw [hA, hB, show natToChars 1 = ['1'] from by decide]
        simp only [List.cons_append, List.nil_append]
        simp [steam2At, natToChars_ne_nil (n / 2), natToChars_all_digit (n / 2)]
    intro v
    have hcore : from_guess_core ((SteamID.mk (n + CONST_ID64)).steam2)
        = .found (n + CONST_ID64) := by
      have hval : digitsVal (natToChars (n / 2)) * 2 + CONST_ID64 + n % 2 = n + CONST_ID64 := by
        rw [digitsVal_natToChars]
        omega
      rw [from_guess_core_steam2 _ _ _ (reSearch_of_head _ _ _ hmatch), hval]
    exact from_guess_found v _ _ hcore
  · -- the SteamID3 round trip
    have hs3 : (SteamID.mk (n + CONST_ID64)).steam3
        = "[U:1:".data ++ natToChars n ++ "]".data := by
      rw [SteamID.steam3]
      have harg : (((SteamID.mk (n + CONST_ID64)).id64 : Int) - CONST_ID64) = ((n : Nat) : Int) := by
        show (((n + CONST_ID64 : Nat) : Int) - CONST_ID64) = _
        push_cast
        ring
      rw [harg, intToChars_natCast]
    have hlt10 : n < 10 ^ 10 := lt_of_lt_of_le hn (by norm_num)
    have h2none : reSearch steam2At ((SteamID.mk (n + CONST_ID64)).steam3) = none := by
      rw [hs3, show "]".data = [']'] from by decide]
      exact reSearch_steam2_concat_none _ ']' (by decide)
    have hmatch3 : steam3At ((SteamID.mk (n + CONST_ID64)).steam3) = some (natToChars n) := by
      rw [hs3, show "[U:1:".data = ['[','U',':','1',':'] from by decide,
        show "]".data = [']'] from by decide]
      simp only [List.cons_append, List.nil_append, List.append_assoc]
      simp [steam3At, List.getLast?_concat, List.dropLast_concat, natToChars_ne_nil n,
        natToChars_all_digit n, natToChars_len_le n 10 hlt10 (by norm_num)]
    intro v
    have hcore : from_guess_core ((SteamID.mk (n + CONST_ID64)).steam3)
        = .found (n + CONST_ID64) := by
      rw [from_guess_core_steam3 _ _ h2none (reSearch_of_head _ _ _ hmatch3),
        digitsVal_natToChars]
    exact from_guess_found v _ _ hcore

/-- Witness for C1 at the concrete account number `n = 11`. -/
theorem steamid_roundtrip_C1_witness :
    (SteamID.mk (11 + CONST_ID64)).id32 = 11 ∧
    from_guess (fun _ => none) (SteamID.mk (11 + CONST_ID64)).steam2 = some (11 + CONST_ID64) ∧
    from_guess (fun _ => none) (SteamID.mk (11 + CONST_ID64)).steam3 = some (11 + CONST_ID64) :=
  ⟨(steamid_roundtrip_C1 11 (by norm_num)).1,
   (steamid_roundtrip_C1 11 (by norm_num)).2.1 _,
   (steamid_roundtrip_C1 11 (by norm_num)).2.2 _⟩

/-! ## Claim C2 -/

/-- C2: `SteamID.from_guess` tries the patterns in the fixed order SteamID2,
SteamID3, 17-digit id64, 1-10-digit account number, vanity, the first match
winning.  `STEAM_1:1:11` parses through the SteamID2 rule to
`11*2 + CONST_ID64 + 1`, which differs from the `11 + CONST_ID64` the later
trailing-digits rule would produce; and a string ending in the bare 17-digit
run `76561197960287930` on which the earlier SteamID2 pattern finds no match
parses through the 17-digit rule to exactly that integer, which differs from
the value the later 1-10-digit rule would extract from its digit suffix. -/
theorem from_guess_order_C2 :
    (∀ v, from_guess v "STEAM_1:1:11".data = some (11 * 2 + CONST_ID64 + 1)) ∧
    11 * 2 + CONST_ID64 + 1 ≠ 11 + CONST_ID64 ∧
    (∀ (pre : List Char) v,
      reSearch steam2At (pre ++ "76561197960287930".data) = none →
      from_guess v (pre ++ "76561197960287930".data) = some 76561197960287930) ∧
    (76561197960287930 : Nat) ≠ digitsVal "7960287930".data + CONST_ID64 := by
  refine ⟨?_, by omega, ?_, ?_⟩
  · intro v
    exact from_guess_found v _ _ (by decide)
  · intro pre v h2
    have hds : ("76561197960287930".data).length = 17 := by decide
    have hdig : ("76561197960287930".data).all Char.isDigit = true := by decide
    have h3 : reSearch steam3At (pre ++ "76561197960287930".data) = none := by
      have hsplit : pre ++ "76561197960287930".data
          = (pre ++ "7656119796028793".data) ++ ['0'] := by
        rw [List.append_assoc]
        congr 1
      rw [hsplit]
      exact reSearch_steam3_concat_none _ '0' (by decide)
    have h64 : reSearch id64At (pre ++ "76561197960287930".data)
        = some ("76561197960287930".data) := by
      apply reSearch_append
      · intro j hj
        apply id64At_prefix_none _ _ ?_ hds hdig
        have hpos : 0 < (pre.drop j).length := by
          rw [List.length_drop]
          omega
        exact List.ne_nil_of_length_pos hpos
      · exact id64At_of_17 _ hds hdig
    have hcore := from_guess_core_id64 _ _ h2 h3 h64
    rw [show digitsVal "76561197960287930".data = 76561197960287930 from by decide] at hcore
    exact from_guess_found v _ _ hcore
  · rw [show digitsVal "7960287930".data = 7960287930 from by decide, CONST_ID64]
    norm_num

/-- Witness for C2's universally quantified conjunct, at the empty prefix
and the trivial vanity oracle. -/
theorem from_guess_order_C2_witness :
    from_guess (fun _ => none) ([] ++ "76561197960287930".data) = some 76561197960287930 :=
  from_guess_order_C2.2.2.1 [] (fun _ => none) (by decide)

/-! ## Claim C10 -/

/-- C10: any input whose trailing token is a run of 1 to 10 decimal digits
(optionally followed by `/`), immediately preceded by a non-digit (if
anything), and on which the SteamID2, SteamID3 and 17-digit searches all
fail, is resolved by the trailing-digits rule to `digits + CONST_ID64`
independently of the vanity oracle — so a digits-only vanity name is never
sent to the vanity lookup — and no 32-bit bound is enforced: the 10-digit
value `9999999999 > 2^32 - 1` is accepted the same way. -/
theorem from_guess_id32_C10 (pre ds opt : List Char)
    (hopt : opt = [] ∨ opt = ['/'])
    (hne : ds ≠ []) (hlen : ds.length ≤ 10) (hdig : ds.all Char.isDigit = true)
    (hpre : ∀ c, pre.getLast? = some c → c.isDigit = false)
    (h2 : reSearch steam2At (pre ++ (ds ++ opt)) = none)
    (h3 : reSearch steam3At (pre ++ (ds ++ opt)) = none)
    (h64 : reSearch id64At (pre ++ (ds ++ opt)) = none) :
    from_guess_core (pre ++ (ds ++ opt)) = .found (digitsVal ds + CONST_ID64) ∧
    (∀ v, from_guess v (pre ++ (ds ++ opt)) = some (digitsVal ds + CONST_ID64)) ∧
    (∀ v, from_guess v "9999999999".data = some (9999999999 + CONST_ID64)) ∧
    2 ^ 32 - 1 < 9999999999 := by
  have h32 : reSearch id32At (pre ++ (ds ++ opt)) = some ds :=
    reSearch_id32_found pre ds opt hopt hne hlen hdig hpre
  have hcore := from_guess_core_id32 _ _ h2 h3 h64 h32
  exact ⟨hcore, fun v => from_guess_found v _ _ hcore,
    fun v => from_guess_found v _ _ (by decide), by norm_num⟩

/-- Witness for C10 at the input `123/` (empty prefix, trailing slash). -/
theorem from_guess_id32_C10_witness :
    from_guess (fun _ => none) ([] ++ ("123".data ++ ['/']))
      = some (digitsVal "123".data + CONST_ID64) :=
  (from_guess_id32_C10 [] "123".data ['/'] (Or.inr rfl) (by decide) (by decide) (by decide)
    (fun c hc => nomatch hc) (by decide) (by decide) (by decide)).2.1 (fun _ => none)

/-! ## Cache behaviour lemmas -/

theorem bind_complete_read_of_cache_nil (st : BindState) (h : st.cache = [])
    (u g : Nat) (cur : List Char) : (bind_complete st u g cur).2.2 = true := by
  simp [bind_complete, h, lookupCache]

theorem find?_map_replace (c : List ((Nat × Nat) × List Bind)) (k : Nat × Nat) (v : List Bind)
    (h : (c.find? (fun e => e.1 == k)).isSome = true) :
    (c.map (fun e => if e.1 == k then (k, v) else e)).find? (fun e => e.1 == k)
      = some (k, v) := by
  induction c with
  | nil => simp at h
  | cons e rest ih =>
    by_cases he : e.1 == k
    · rw [List.map_cons, if_pos he]
      simp [List.find?_cons]
    · have hrest : ((rest.find? fun e => e.1 == k)).isSome = true := by
        rw [List.find?_cons] at h
        simp only [Bool.not_eq_true] at he
        rw [he] at h
        exact h
      simp only [List.map_cons, List.find?_cons]
      simp only [Bool.not_eq_true] at he
      rw [if_neg (by simp [he]), he, ih hrest]

theorem lookupCache_setCache (c : List ((Nat × Nat) × List Bind)) (k : Nat × Nat)
    (v : List Bind) : lookupCache (setCache c k v) k = some v := by
  unfold lookupCache setCache
  by_cases h : (c.find? (fun e => e.1 == k)).isSome
  · rw [if_pos h, find?_map_replace c k v h]
    rfl
  · rw [if_neg h, List.find?_append, Option.not_isSome_iff_eq_none.mp h]
    simp [List.find?_cons]

theorem bind_complete_miss (st : BindState) (u g : Nat) (cur : List Char)
    (h : lookupCache st.cache (u, g) = none) :
    (bind_complete st u g cur).2.2 = true ∧
    (bind_complete st u g cur).2.1
      = { st with cache := setCache st.cache (u, g) (get_all_binds st u g) } := by
  simp [bind_complete, h]

theorem bind_complete_empty (st : BindState) (u g : Nat) (cur : List Char)
    (h : lookupCache st.cache (u, g) = some []) :
    (bind_complete st u g cur).2.2 = true := by
  simp [bind_complete, h]

theorem bind_complete_hit (st : BindState) (u g : Nat) (cur : List Char) (l : List Bind)
    (h : lookupCache st.cache (u, g) = some l) (hne : l ≠ []) :
    (bind_complete st u g cur).2.2 = false ∧
    (bind_complete st u g cur).2.1 = st ∧
    (bind_complete st u g cur).1 = (if cur.isEmpty then l.take MAX_COMPLETE_OPTS
      else (l.take MAX_COMPLETE_OPTS).filter (fun b => strMem cur b.name)) := by
  have hie : l.isEmpty = false := List.isEmpty_eq_false.mpr hne
  refine ⟨?_, ?_, ?_⟩ <;> simp [bind_complete, h, hie]

/-! ## Claim C3 -/

/-- C3: each of the four mutating store operations ends in `_commit`, which
clears the entire `complete_cache` — not just the touched key — so the next
autocomplete call for ANY `(user, guild)` key misses the cache and performs a
fresh database read. -/
theorem cache_invalidation_C3 (st : BindState) (name text newText : List Char)
    (author guild time_ : Nat) (bind : Bind) (g2 : Nat) :
    (∀ st', add_bind st name text author guild time_ = some st' →
      st'.cache = [] ∧ ∀ u g cur, (bind_complete st' u g cur).2.2 = true) ∧
    ((edit_bind st bind newText).cache = [] ∧
      ∀ u g cur, (bind_complete (edit_bind st bind newText) u g cur).2.2 = true) ∧
    ((delete_bind st bind).cache = [] ∧
      ∀ u g cur, (bind_complete (delete_bind st bind) u g cur).2.2 = true) ∧
    ((nuke_server_binds st g2).cache = [] ∧
      ∀ u g cur, (bind_complete (nuke_server_binds st g2) u g cur).2.2 = true) := by
  refine ⟨?_, ⟨rfl, fun u g cur => bind_complete_read_of_cache_nil _ rfl u g cur⟩,
    ⟨rfl, fun u g cur => bind_complete_read_of_cache_nil _ rfl u g cur⟩,
    ⟨rfl, fun u g cur => bind_complete_read_of_cache_nil _ rfl u g cur⟩⟩
  intro st' hadd
  unfold add_bind at hadd
  by_cases hdup : st.db.any (fun b => decide (b.guild = guild ∧ b.name = lowerStr name))
  · rw [if_pos hdup] at hadd
    exact absurd hadd (by simp)
  · rw [if_neg hdup] at hadd
    have hst' : st' = ⟨st.db ++ [⟨lowerStr name, text, author, guild, time_⟩], []⟩ :=
      (Option.some.inj hadd).symm
    subst hst'
    exact ⟨rfl, fun u g cur => bind_complete_read_of_cache_nil _ rfl u g cur⟩

/-- Witness for C3: a concrete successful `add_bind` leaves an empty cache
and the next autocomplete call (for an unrelated key) reads the store. -/
theorem cache_invalidation_C3_witness :
    (⟨[⟨"go".data, "hey".data, 1, 2, 3⟩], []⟩ : BindState).cache = [] ∧
    (bind_complete (⟨[⟨"go".data, "hey".data, 1, 2, 3⟩], []⟩ : BindState) 9 9 "q".data).2.2
      = true := by
  have h := (cache_invalidation_C3 ⟨[], []⟩ "Go".data "hey".data "x".data 1 2 3
    ⟨"a".data, "b".data, 0, 0, 0⟩ 0).1 ⟨[⟨"go".data, "hey".data, 1, 2, 3⟩], []⟩ (by decide)
  exact ⟨h.1, h.2 9 9 "q".data⟩

/-! ## Claims C4 and C5 -/

theorem create_none_inv (alnum : List Char → Bool) (cleanse : List Char → List Char)
    (st : BindState) (name text : List Char) (a g τ : Nat) (st' : BindState)
    (h : create alnum cleanse st name text a g τ = (none, st')) :
    get_bind st name g = none ∧
    st' = ⟨st.db ++ [⟨lowerStr name, cleanse text, a, g, τ⟩], []⟩ := by
  unfold create at h
  by_cases hdup : (get_bind st name g).isSome
  · rw [if_pos hdup] at h
    exact absurd (congrArg Prod.fst h) (by simp)
  · rw [if_neg hdup] at h
    by_cases halnum : ¬ (alnum name = true)
    · rw [if_pos halnum] at h
      exact absurd (congrArg Prod.fst h) (by simp)
    · rw [if_neg halnum] at h
      by_cases hlen : name.length > MAX_NAME_LEN ∨ name.length < MIN_NAME_LEN
      · rw [if_pos hlen] at h
        exact absurd (congrArg Prod.fst h) (by simp)
      · rw [if_neg hlen] at h
        by_cases htext : text.length < MIN_TEXT_LEN ∨ text.length > MAX_TEXT_LEN
        · rw [if_pos htext] at h
          exact absurd (congrArg Prod.fst h) (by simp)
        · rw [if_neg htext] at h
          by_cases hany :
              st.db.any (fun b => decide (b.guild = g ∧ b.name = lowerStr name)) = true
          · rw [show add_bind st name (cleanse text) a g τ = none from by
              unfold add_bind; rw [if_pos hany]] at h
            exact absurd (congrArg Prod.fst h) (by simp)
          · rw [show add_bind st name (cleanse text) a g τ
                = some ⟨st.db ++ [⟨lowerStr name, cleanse text, a, g, τ⟩], []⟩ from by
              unfold add_bind; rw [if_neg hany]] at h
            exact ⟨Option.not_isSome_iff_eq_none.mp hdup, (congrArg Prod.snd h).symm⟩

/-- C4: once `create` has succeeded for a name in a guild, a second `create`
in the same guild with any name of equal lowercase form fails with
`DuplicateName`, and the failed call leaves the stored rows unchanged (the
returned state is the input state). -/
theorem duplicate_create_C4 (alnum : List Char → Bool) (cleanse : List Char → List Char)
    (st st' : BindState) (n1 n2 t1 t2 : List Char) (a1 a2 g τ1 τ2 : Nat)
    (hlow : lowerStr n1 = lowerStr n2)
    (h1 : create alnum cleanse st n1 t1 a1 g τ1 = (none, st')) :
    create alnum cleanse st' n2 t2 a2 g τ2 = (some .duplicateName, st') := by
  obtain ⟨hg, hst'⟩ := create_none_inv alnum cleanse st n1 t1 a1 g τ1 st' h1
  subst hst'
  have hsome : (get_bind (⟨st.db ++ [⟨lowerStr n1, cleanse t1, a1, g, τ1⟩], []⟩ : BindState)
      n2 g).isSome = true := by
    show (List.find? (fun b => decide (b.name = lowerStr n2 ∧ b.guild = g))
      (st.db ++ [⟨lowerStr n1, cleanse t1, a1, g, τ1⟩])).isSome = true
    rw [List.find?_isSome]
    exact ⟨⟨lowerStr n1, cleanse t1, a1, g, τ1⟩,
      List.mem_append_right _ (List.mem_singleton_self _), by simp [hlow]⟩
  unfold create
  rw [if_pos hsome]

/-- Witness for C4: creating `Go` and then `go` in the same guild. -/
theorem duplicate_create_C4_witness :
    create isAlnumStr (fun t => t) ⟨[⟨"go".data, "hey".data, 1, 2, 3⟩], []⟩
        "go".data "aaa".data 4 2 9
      = (some .duplicateName, ⟨[⟨"go".data, "hey".data, 1, 2, 3⟩], []⟩) :=
  duplicate_create_C4 isAlnumStr (fun t => t) ⟨[], []⟩
    ⟨[⟨"go".data, "hey".data, 1, 2, 3⟩], []⟩
    "Go".data "go".data "hey".data "aaa".data 1 4 2 3 9 (by decide) (by decide)

/-- C5: with no duplicate present (the duplicate check runs first), `create`
fails with `InvalidInput` and inserts nothing whenever the name is not
alphanumeric — stated for the actual Unicode-aware `str.isalnum` predicate,
which enters as the `alnum` parameter — the name length is outside `[2, 25]`,
or the text length is outside `[3, 600]`; in particular the one-letter name
`a` (where the ASCII instantiation `isAlnumStr` agrees with the builtin) is
rejected with `InvalidInput` while `ab` succeeds. -/
theorem invalid_create_C5 (alnum : List Char → Bool) (cleanse : List Char → List Char)
    (st : BindState) (name text : List Char) (a g τ : Nat)
    (hnodup : get_bind st name g = none)
    (hbad : alnum name = false ∨ name.length < MIN_NAME_LEN ∨
      name.length > MAX_NAME_LEN ∨ text.length < MIN_TEXT_LEN ∨ text.length > MAX_TEXT_LEN) :
    create alnum cleanse st name text a g τ = (some .invalidInput, st) ∧
    create isAlnumStr (fun t => t) ⟨[], []⟩ "a".data "hey".data 1 2 3
      = (some .invalidInput, ⟨[], []⟩) ∧
    (create isAlnumStr (fun t => t) ⟨[], []⟩ "ab".data "hey".data 1 2 3).1 = none := by
  refine ⟨?_, by decide, by decide⟩
  unfold create
  rw [if_neg (by rw [hnodup]; simp)]
  by_cases h1 : alnum name = true
  · rw [if_neg (by simp [h1])]
    by_cases h2 : name.length > MAX_NAME_LEN ∨ name.length < MIN_NAME_LEN
    · rw [if_pos h2]
    · rw [if_neg h2]
      have h3 : text.length < MIN_TEXT_LEN ∨ text.length > MAX_TEXT_LEN := by
        rcases hbad with hb | hb | hb | hb | hb
        · exact absurd h1 (by simp [hb])
        · exact absurd (Or.inr hb) h2
        · exact absurd (Or.inl hb) h2
        · exact Or.inl hb
        · exact Or.inr hb
      rw [if_pos h3]
  · rw [if_pos (by simp [h1])]

/-- Witness for C5 at the one-letter name `a` on an empty store. -/
theorem invalid_create_C5_witness :
    create isAlnumStr (fun t => t) ⟨[], []⟩ "a".data "hey".data 1 2 3
      = (some .invalidInput, ⟨[], []⟩) :=
  (invalid_create_C5 isAlnumStr (fun t => t) ⟨[], []⟩ "a".data "hey".data 1 2 3 (by decide)
    (Or.inr (Or.inl (by decide)))).1

/-! ## Claims C6 and C9 -/

theorem from_steamid_eq {α β γ δ ε : Type} (summ : Resp α) (bans : Resp β)
    (friends : Resp (List γ)) (level : Resp δ) (customs : Resp ε) :
    from_steamid summ bans friends level customs =
      if (200 ≤ summ.status ∧ summ.status ≤ 299) ∧ (200 ≤ bans.status ∧ bans.status ≤ 299) ∧
          (200 ≤ level.status ∧ level.status ≤ 299) ∧
          (200 ≤ customs.status ∧ customs.status ≤ 299)
      then some ⟨summ.payload, bans.payload,
        if friends.status = 200 then some friends.payload else none,
        level.payload, customs.payload⟩
      else none := by
  unfold from_steamid raise_for_status
  by_cases h1 : 200 ≤ summ.status ∧ summ.status ≤ 299 <;>
    by_cases h2 : 200 ≤ bans.status ∧ bans.status ≤ 299 <;>
    by_cases h3 : 200 ≤ level.status ∧ level.status ≤ 299 <;>
    by_cases h4 : 200 ≤ customs.status ∧ customs.status ≤ 299 <;>
    simp [h1, h2, h3, h4]

/-- C6: when the friend-list response is not a 200 while the other four
fetches succeed (2xx statuses, which `raise_for_status` lets through),
`SteamUser.from_steamid` completes without raising and the resulting user's
`friend_amount` is `None` (absent). -/
theorem friends_private_C6 {α β γ δ ε : Type} (summ : Resp α) (bans : Resp β)
    (friends : Resp (List γ)) (level : Resp δ) (customs : Resp ε)
    (hs : 200 ≤ summ.status ∧ summ.status ≤ 299)
    (hb : 200 ≤ bans.status ∧ bans.status ≤ 299)
    (hl : 200 ≤ level.status ∧ level.status ≤ 299)
    (hc : 200 ≤ customs.status ∧ customs.status ≤ 299)
    (hf : friends.status ≠ 200) :
    from_steamid summ bans friends level customs
      = some ⟨summ.payload, bans.payload, none, level.payload, customs.payload⟩ ∧
    ∀ u, from_steamid summ bans friends level customs = some u → u.friend_amount = none := by
  have hmain : from_steamid summ bans friends level customs
      = some ⟨summ.payload, bans.payload, none, level.payload, customs.payload⟩ := by
    rw [from_steamid_eq, if_pos ⟨hs, hb, hl, hc⟩, if_neg hf]
  refine ⟨hmain, fun u hu => ?_⟩
  rw [hmain] at hu
  cases Option.some.inj hu
  rfl

/-- Witness for C6: a 403 friend-list response among otherwise successful
fetches. -/
theorem friends_private_C6_witness :
    from_steamid (⟨200, ()⟩ : Resp Unit) (⟨200, ()⟩ : Resp Unit)
        (⟨403, ([] : List Unit)⟩ : Resp (List Unit)) (⟨200, ()⟩ : Resp Unit)
        (⟨200, ()⟩ : Resp Unit)
      = some ⟨(), (), none, (), ()⟩ ∧
    (⟨(), (), none, (), ()⟩ : SteamUser Unit Unit Unit Unit Unit).friend_amount = none := by
  have h := friends_private_C6 (⟨200, ()⟩ : Resp Unit) (⟨200, ()⟩ : Resp Unit)
    (⟨403, ([] : List Unit)⟩ : Resp (List Unit)) (⟨200, ()⟩ : Resp Unit)
    (⟨200, ()⟩ : Resp Unit) (by decide) (by decide) (by decide) (by decide) (by decide)
  exact ⟨h.1, h.2 _ h.1⟩

/-- C9 counterexample: a successful (status-200) friend-list fetch that
returns the empty list is stored as the present value `some []`, yet
`friend_amount` maps it to `None` — the same absent value that a
privacy-restricted (non-200) fetch produces — so the profile does not expose
a present `0` distinct from absence, contrary to the claim. -/
theorem friend_zero_C9_counterexample :
    ((from_steamid (⟨200, ()⟩ : Resp Unit) (⟨200, ()⟩ : Resp Unit)
        (⟨200, ([] : List Unit)⟩ : Resp (List Unit)) (⟨200, ()⟩ : Resp Unit)
        (⟨200, ()⟩ : Resp Unit)).map (fun u => u.r_friends)) = some (some []) ∧
    ((from_steamid (⟨200, ()⟩ : Resp Unit) (⟨200, ()⟩ : Resp Unit)
        (⟨200, ([] : List Unit)⟩ : Resp (List Unit)) (⟨200, ()⟩ : Resp Unit)
        (⟨200, ()⟩ : Resp Unit)).map SteamUser.friend_amount) = some none ∧
    ((from_steamid (⟨200, ()⟩ : Resp Unit) (⟨200, ()⟩ : Resp Unit)
        (⟨401, ([] : List Unit)⟩ : Resp (List Unit)) (⟨200, ()⟩ : Resp Unit)
        (⟨200, ()⟩ : Resp Unit)).map SteamUser.friend_amount) = some none ∧
    some (none : Option Nat) ≠ some (some (0 : Nat)) := by
  exact ⟨rfl, rfl, rfl, by simp⟩

/-- C9 amended: `friend_amount` collapses a successfully fetched empty
friends list to the same absent `None` produced by a privacy-restricted
fetch; only a nonempty list yields a present count.  A present zero is never
produced. -/
theorem friend_amount_C9_amended {α β γ δ ε : Type} (summ : Resp α) (bans : Resp β)
    (friends : Resp (List γ)) (level : Resp δ) (customs : Resp ε)
    (u : SteamUser α β γ δ ε)
    (hu : from_steamid summ bans friends level customs = some u) :
    (friends.status = 200 → friends.payload = [] → u.friend_amount = none) ∧
    (friends.status ≠ 200 → u.friend_amount = none) ∧
    (friends.status = 200 → friends.payload ≠ [] →
      u.friend_amount = some friends.payload.length) ∧
    u.friend_amount ≠ some 0 := by
  rw [from_steamid_eq] at hu
  by_cases hok : (200 ≤ summ.status ∧ summ.status ≤ 299) ∧
      (200 ≤ bans.status ∧ bans.status ≤ 299) ∧ (200 ≤ level.status ∧ level.status ≤ 299) ∧
      (200 ≤ customs.status ∧ customs.status ≤ 299)
  case neg =>
    rw [if_neg hok] at hu
    exact absurd hu (by simp)
  case pos =>
    rw [if_pos hok] at hu
    cases Option.some.inj hu
    by_cases hf : friends.status = 200
    · rw [if_pos hf]
      refine ⟨fun _ hp => ?_, fun hn => absurd hf hn, fun _ hp => ?_, ?_⟩
      · show SteamUser.friend_amount ⟨_, _, some friends.payload, _, _⟩ = none
        rw [hp]
        rfl
      · show SteamUser.friend_amount ⟨_, _, some friends.payload, _, _⟩ = _
        rcases hpl : friends.payload with _ | ⟨f, fs⟩
        · exact absurd hpl hp
        · simp [SteamUser.friend_amount]
      · show SteamUser.friend_amount ⟨_, _, some friends.payload, _, _⟩ ≠ some 0
        rcases friends.payload with _ | ⟨f, fs⟩
        · simp [SteamUser.friend_amount]
        · simp [SteamUser.friend_amount]
    · rw [if_neg hf]
      exact ⟨fun h200 => absurd h200 hf, fun _ => rfl, fun h200 => absurd h200 hf, by
        show SteamUser.friend_amount ⟨_, _, none, _, _⟩ ≠ some 0
        simp [SteamUser.friend_amount]⟩

/-- Witness for C9's amended statement: empty 200 list gives an absent
count. -/
theorem friend_amount_C9_amended_witness :
    ((⟨(), (), some [], (), ()⟩ : SteamUser Unit Unit Unit Unit Unit).friend_amount = none) ∧
    ((⟨(), (), some [], (), ()⟩ : SteamUser Unit Unit Unit Unit Unit).friend_amount ≠ some 0) := by
  have h := friend_amount_C9_amended (⟨200, ()⟩ : Resp Unit) (⟨200, ()⟩ : Resp Unit)
    (⟨200, ([] : List Unit)⟩ : Resp (List Unit)) (⟨200, ()⟩ : Resp Unit)
    (⟨200, ()⟩ : Resp Unit) ⟨(), (), some [], (), ()⟩ (by decide)
  exact ⟨h.1 rfl rfl, h.2.2.2⟩

/-! ## Claims C7 and C8 -/

/-- Twenty-six rows owned by author 7 in guild 9: twenty-five filler names
`aa0` … `aa24` followed by one name `zz11` that contains the query `zz`. -/
def c7Binds : List Bind :=
  (List.range 25).map (fun i => ⟨'a' :: 'a' :: natToChars i, "ttt".data, 7, 9, 0⟩) ++
    [⟨"zz11".data, "ttt".data, 7, 9, 0⟩]

/-- The state reached after the first autocomplete call for key `(7, 9)` on a
database holding `c7Binds`: the cache is populated with all 26 rows. -/
def c7State : BindState := ⟨c7Binds, [((7, 9), c7Binds)]⟩

/-- C7 counterexample: on the populated cache key `(7, 9)` and the non-empty
query `zz`, exactly one cached snippet's name contains the query (well under
the 25 cap), yet the suggestions are empty, because the code slices the
cached list to 25 entries before filtering and the matching row sits at
position 26.  The populated state itself is produced by the code: it is the
post-state of the first autocomplete call. -/
theorem autocomplete_cap_C7_counterexample :
    (bind_complete ⟨c7Binds, []⟩ 7 9 "zz".data).2.1 = c7State ∧
    lookupCache c7State.cache (7, 9) = some c7Binds ∧
    (c7Binds.filter (fun b => strMem "zz".data b.name)).length = 1 ∧
    1 ≤ MAX_COMPLETE_OPTS ∧
    (bind_complete c7State 7 9 "zz".data).1 = [] := by
  exact ⟨by decide, by decide, by decide, by decide, by decide⟩

/-- C7 amended: for a populated (nonempty) cache key and a non-empty query,
the suggestions are exactly the members of the FIRST 25 cached snippets whose
stored name contains the query — the 25-entry cap is applied to the cached
list before filtering, so a matching snippet beyond position 25 never
appears even when fewer than 25 names match.  Every suggestion does come
from the cached list and does contain the query. -/
theorem autocomplete_filter_C7_amended (st : BindState) (u g : Nat) (cur : List Char)
    (l : List Bind) (hl : lookupCache st.cache (u, g) = some l) (hne : l ≠ [])
    (hcur : cur ≠ []) :
    (bind_complete st u g cur).1
      = (l.take MAX_COMPLETE_OPTS).filter (fun b => strMem cur b.name) ∧
    (bind_complete st u g cur).2.2 = false ∧
    (bind_complete st u g cur).2.1 = st ∧
    ∀ b ∈ (bind_complete st u g cur).1, b ∈ l ∧ strMem cur b.name = true := by
  obtain ⟨hflag, hstate, hsugg⟩ := bind_complete_hit st u g cur l hl hne
  have hcure : cur.isEmpty = false := List.isEmpty_eq_false.mpr hcur
  rw [hcure] at hsugg
  simp only [Bool.false_eq_true, if_false] at hsugg
  refine ⟨hsugg, hflag, hstate, fun b hb => ?_⟩
  rw [hsugg] at hb
  exact ⟨List.take_subset _ _ (List.mem_filter.mp hb).1, (List.mem_filter.mp hb).2⟩

/-- Witness for C7's amended statement on the concrete populated state. -/
theorem autocomplete_filter_C7_amended_witness :
    (bind_complete c7State 7 9 "zz".data).1
      = (c7Binds.take MAX_COMPLETE_OPTS).filter (fun b => strMem "zz".data b.name) ∧
    (bind_complete c7State 7 9 "zz".data).2.2 = false :=
  ⟨(autocomplete_filter_C7_amended c7State 7 9 "zz".data c7Binds (by decide) (by decide)
      (by decide)).1,
   (autocomplete_filter_C7_amended c7State 7 9 "zz".data c7Binds (by decide) (by decide)
      (by decide)).2.1⟩

/-- C8 counterexample: for a user with no snippets, the first autocomplete
call reads the store and populates the key with the empty list, but the
second call — with no intervening write — reads the store AGAIN, because the
truthiness test `if not complete_cache.get(user_tuple)` treats the cached
empty list as a miss.  The claim that every subsequent request is served
from the cache without a store read, including for an empty list, is
false. -/
theorem autocomplete_empty_C8_counterexample :
    (bind_complete ⟨[], []⟩ 5 6 []).2.2 = true ∧
    lookupCache ((bind_complete ⟨[], []⟩ 5 6 []).2.1).cache (5, 6) = some [] ∧
    (bind_complete (bind_complete ⟨[], []⟩ 5 6 []).2.1 5 6 []).2.2 = true := by
  exact ⟨by decide, by decide, by decide⟩

/-- C8 amended: the first autocomplete request for a key performs a store
read and populates the cache entry; a later request for the same key with no
intervening write is served from the cache without a store read exactly when
the cached list is nonempty, while a key whose cached list is empty is
treated as a miss and re-reads the store on every request. -/
theorem autocomplete_cache_C8_amended (st : BindState) (u g : Nat) (cur : List Char) :
    (lookupCache st.cache (u, g) = none →
      (bind_complete st u g cur).2.2 = true ∧
      lookupCache ((bind_complete st u g cur).2.1).cache (u, g)
        = some (get_all_binds st u g)) ∧
    (∀ l, lookupCache st.cache (u, g) = some l → l ≠ [] →
      (bind_complete st u g cur).2.2 = false ∧ (bind_complete st u g cur).2.1 = st) ∧
    (lookupCache st.cache (u, g) = some [] → (bind_complete st u g cur).2.2 = true) := by
  refine ⟨fun h => ?_, fun l hl hne => ?_, fun h => bind_complete_empty st u g cur h⟩
  · obtain ⟨hflag, hstate⟩ := bind_complete_miss st u g cur h
    refine ⟨hflag, ?_⟩
    rw [hstate]
    exact lookupCache_setCache _ _ _
  · obtain ⟨hflag, hstate, -⟩ := bind_complete_hit st u g cur l hl hne
    exact ⟨hflag, hstate⟩

/-- Witness for C8's amended statement: the very first request on an empty
cache reads the store and populates the key. -/
theorem autocomplete_cache_C8_amended_witness :
    (bind_complete ⟨[], []⟩ 5 6 []).2.2 = true ∧
    lookupCache ((bind_complete (⟨[], []⟩ : BindState) 5 6 []).2.1).cache (5, 6)
      = some (get_all_binds ⟨[], []⟩ 5 6) :=
  (autocomplete_cache_C8_amended ⟨[], []⟩ 5 6 []).1 (by decide)

end Moacyr
